import Mathlib

/-!
Verification of the dataflow_analytics pipeline (aggregation job, metrics
summary service, and TF-IDF document search) against its specification.

The Python sources are shallowly embedded as Lean definitions:

* `analytics.py` (`AnalyticsService.load_metrics` / `AnalyticsService.summary`)
  becomes `load_metrics` / `summary` over an association-list model of the
  object store; a raised Python exception is modelled as an `Option.none`
  result.
* `jobs/transform_events.py` (`transform_events` / `run_job`) becomes
  `transform_events` / `run_job`.
* `rag.py` (`DocumentStore._load_documents` / `DocumentStore.search` /
  `_snippet`) becomes `loadDocuments` / `search` / `snippet`, with a corpus
  directory modelled as a list of (filename, file text) pairs.

String-processing primitives are implemented over `String.data` (lists of
characters) so that every computable definition reduces in the kernel.
-/

/-! ### String utilities (models of the Python string primitives used) -/

/-- Lexicographic-order test on character lists by Unicode code point,
the order Python uses to compare `str` values. -/
def strLeAux : List Char → List Char → Bool
  | [], _ => true
  | _ :: _, [] => false
  | c :: cs, d :: ds =>
    if c.toNat < d.toNat then true
    else if d.toNat < c.toNat then false
    else strLeAux cs ds

/-- Python string comparison (lexicographic by code point). -/
def strLe (a b : String) : Bool :=
  strLeAux a.data b.data

/-- The characters Python `str.strip()` removes (space, tab, and the four
control line/page separators). -/
def pyIsSpace (c : Char) : Bool :=
  c.toNat = 32 || (9 ≤ c.toNat && c.toNat ≤ 13)

/-- Python `str.strip()`: drop leading and trailing whitespace. -/
def pyStrip (s : String) : String :=
  String.mk (((s.data.dropWhile pyIsSpace).reverse.dropWhile pyIsSpace).reverse)

/-- Python `str.splitlines()` on a character list: split at line breaks
(`\n`, `\r`, `\r\n`), with no trailing empty piece. -/
def splitLinesAux : List Char → List Char → List (List Char)
  | acc, [] => if acc.isEmpty then [] else [acc.reverse]
  | acc, '\x0d' :: '\n' :: rest => acc.reverse :: splitLinesAux [] rest
  | acc, '\x0d' :: rest => acc.reverse :: splitLinesAux [] rest
  | acc, '\n' :: rest => acc.reverse :: splitLinesAux [] rest
  | acc, c :: rest => splitLinesAux (c :: acc) rest

/-- Python `str.splitlines()`. -/
def splitLines (s : String) : List String :=
  (splitLinesAux [] s.data).map String.mk

/-- Decimal digit test (code points 48 through 57). -/
def isDigitChar (c : Char) : Bool :=
  48 ≤ c.toNat && c.toNat ≤ 57

/-- Numeric value of a list of decimal digits. -/
def digitsToNat : List Char → Nat
  | [] => 0
  | c :: cs => (digitsToNat cs) + (c.toNat - 48) * (10 ^ cs.length)

/-! ### Calendar dates: model of Python `datetime.date` -/

/-- A calendar date, as produced by `datetime.date.fromisoformat` and by the
aggregation job's timestamp parsing. -/
structure Date where
  year : Nat
  month : Nat
  day : Nat
deriving DecidableEq, Repr

/-- Injective key giving the chronological order on dates
(years are at most 9999, months and days at most two digits). -/
def dateKey (d : Date) : Nat :=
  (d.year * 100 + d.month) * 100 + d.day

/-- Python `min` of two dates (chronological order; keeps the first argument
on ties, as `min` does). -/
def dateMin (a b : Date) : Date :=
  if dateKey b < dateKey a then b else a

/-- Python `max` of two dates (keeps the first argument on ties). -/
def dateMax (a b : Date) : Date :=
  if dateKey a < dateKey b then b else a

/-- Gregorian leap-year rule, as used by `datetime.date`. -/
def isLeapYear (y : Nat) : Bool :=
  (y % 4 = 0 && y % 100 ≠ 0) || y % 400 = 0

/-- Days in a month of a given year. -/
def daysInMonth (y m : Nat) : Nat :=
  if m = 2 then (if isLeapYear y then 29 else 28)
  else if m = 4 || m = 6 || m = 9 || m = 11 then 30
  else 31

/-- Model of `datetime.date.fromisoformat` on the dashed `YYYY-MM-DD` form:
exactly ten characters, digits in the digit positions, dashes in the dash
positions, and a valid Gregorian calendar date (year at least 1). -/
def parseDate (s : String) : Option Date :=
  match s.data with
  | [y1, y2, y3, y4, '-', m1, m2, '-', d1, d2] =>
    if isDigitChar y1 && isDigitChar y2 && isDigitChar y3 && isDigitChar y4 &&
       isDigitChar m1 && isDigitChar m2 && isDigitChar d1 && isDigitChar d2 then
      let y := digitsToNat [y1, y2, y3, y4]
      let m := digitsToNat [m1, m2]
      let d := digitsToNat [d1, d2]
      if 1 ≤ y && 1 ≤ m && m ≤ 12 && 1 ≤ d && d ≤ daysInMonth y m then
        some ⟨y, m, d⟩
      else none
    else none
  | _ => none

/-- Zero-padded two-digit rendering. -/
def pad2 (n : Nat) : String :=
  if n < 10 then "0" ++ toString n else toString n

/-- Zero-padded four-digit rendering. -/
def pad4 (n : Nat) : String :=
  if n < 10 then "000" ++ toString n
  else if n < 100 then "00" ++ toString n
  else if n < 1000 then "0" ++ toString n
  else toString n

/-- Model of `datetime.date.isoformat`. -/
def isoformat (d : Date) : String :=
  pad4 d.year ++ "-" ++ pad2 d.month ++ "-" ++ pad2 d.day

/-! ### Metric rows and the summary fold (`analytics.py`, `AnalyticsService.summary`) -/

/-- One aggregated-metrics row as the summary loop reads it: a JSON object
whose fields are accessed with `row.get`.  Absent fields are `none`;
`int(row.get("event_count", 0))` is modelled by `Option.getD 0`
(the coercion is the identity on the integer-valued rows of the
DailyMetric data model). -/
structure Row where
  event_date : Option String
  event_type : Option String
  event_count : Option Int
  unique_users : Option Int
deriving DecidableEq, Repr

/-- The result record of `AnalyticsService.summary` (dataclass
`MetricsSummary`); `event_types` is the dict in insertion order, `dates` is
the optional date range (start, end) in ISO form. -/
structure MetricsSummary where
  total_events : Int
  event_types : List (String × Int)
  dates : Option (String × String)
  daily_unique_users_sum : Int
deriving DecidableEq, Repr

/-- `row.get("event_type") or "unknown"`: the effective event-type bucket of
a row (absent or empty string falls back to "unknown"). -/
def effType (r : Row) : String :=
  match r.event_type with
  | none => "unknown"
  | some s => if s = "" then "unknown" else s

/-- `event_types[k] = event_types.get(k, 0) + count` on an insertion-ordered
association list: add `v` to the entry at key `k`, appending the key if new. -/
def bump (m : List (String × Int)) (k : String) (v : Int) : List (String × Int) :=
  match m with
  | [] => [(k, v)]
  | (k', v') :: rest => if k' = k then (k', v' + v) :: rest else (k', v') :: bump rest k v

/-- `.get(k, 0)` on the association list. -/
def lookupD (m : List (String × Int)) (k : String) : Int :=
  match m with
  | [] => 0
  | (k', v') :: rest => if k' = k then v' else lookupD rest k

/-- The date contributed by a row to the range computation: present exactly
when `row.get("event_date")` is truthy (non-absent, non-empty) and
`date.fromisoformat` succeeds; a `ValueError` is swallowed by the
`try`/`except` in the loop. -/
def rowDate (r : Row) : Option Date :=
  match r.event_date with
  | none => none
  | some s => if s = "" then none else parseDate s

/-- Accumulator of the `for row in rows` loop in `AnalyticsService.summary`. -/
structure SummaryAcc where
  total : Int
  uus : Int
  types : List (String × Int)
  dates : List Date

/-- One iteration of the summary loop. -/
def summaryStep (acc : SummaryAcc) (r : Row) : SummaryAcc :=
  { total := acc.total + r.event_count.getD 0
    uus := acc.uus + r.unique_users.getD 0
    types := bump acc.types (effType r) (r.event_count.getD 0)
    dates := acc.dates ++ (rowDate r).toList }

/-- `AnalyticsService.summary` on an in-memory list of rows: fold the rows,
then render `min(dates)`/`max(dates)` if any date was collected. -/
def summary (rows : List Row) : MetricsSummary :=
  let st := rows.foldl summaryStep ⟨0, 0, [], []⟩
  { total_events := st.total
    event_types := st.types
    dates :=
      match st.dates with
      | [] => none
      | d :: ds => some (isoformat (ds.foldl dateMin d), isoformat (ds.foldl dateMax d))
    daily_unique_users_sum := st.uus }

/-- The dates of a row list that survive into the range computation. -/
def parsedDates (rows : List Row) : List Date :=
  rows.filterMap rowDate

/-! ### JSON values and a parser (model of Python `json.loads`) -/

/-- A parsed JSON value.  Numbers keep their literal text: the summary layer
never consumes numeric values through this type, only parse success
matters to the claims about `load_metrics`. -/
inductive Json where
  | null : Json
  | bool (b : Bool) : Json
  | num (lit : String) : Json
  | str (s : String) : Json
  | arr (elems : List Json) : Json
  | obj (fields : List (String × Json)) : Json

/-- JSON whitespace (space, tab, line feed, carriage return). -/
def jsonWs (c : Char) : Bool :=
  c.toNat = 32 || c.toNat = 9 || c.toNat = 10 || c.toNat = 13

/-- Skip JSON whitespace. -/
def skipWs (cs : List Char) : List Char :=
  cs.dropWhile jsonWs

/-- Hexadecimal digit value, by code point: digits, then the lowercase and
uppercase letter ranges. -/
def hexNibble (c : Char) : Option Nat :=
  let n := c.toNat
  if 48 ≤ n && n ≤ 57 then some (n - 48)
  else if 97 ≤ n && n ≤ 102 then some (n - 87)
  else if 65 ≤ n && n ≤ 70 then some (n - 55)
  else none

/-- Value of a run of hexadecimal digits (`none` when one is invalid). -/
def hexWord (ds : List Char) : Option Nat :=
  ds.foldl
    (fun acc c =>
      match acc, hexNibble c with
      | some v, some h => some (v * 16 + h)
      | _, _ => none)
    (some 0)

/-- One escaped character after the backslash (`\uXXXX` is handled
separately by the caller). -/
def escChar (e : Char) : Option Char :=
  if e = '"' || e = '\\' || e = '/' then some e
  else if e = 'b' then some (Char.ofNat 8)
  else if e = 't' then some (Char.ofNat 9)
  else if e = 'n' then some (Char.ofNat 10)
  else if e = 'f' then some (Char.ofNat 12)
  else if e = 'r' then some (Char.ofNat 13)
  else none

/-- Body of a JSON string literal after the opening quote: scan to the
closing quote, decoding escapes; unescaped control characters are
rejected (`json.loads` is strict). -/
def parseStrBody : List Char → List Char → Option (String × List Char)
  | _, [] => none
  | acc, '\\' :: 'u' :: h1 :: h2 :: h3 :: h4 :: rest =>
    match hexWord [h1, h2, h3, h4] with
    | some n => parseStrBody (Char.ofNat n :: acc) rest
    | none => none
  | acc, '\\' :: e :: rest =>
    match escChar e with
    | some d => parseStrBody (d :: acc) rest
    | none => none
  | acc, c :: rest =>
    if c.toNat = 34 then some (String.mk acc.reverse, rest)
    else if c.toNat < 32 || c.toNat = 92 then none
    else parseStrBody (c :: acc) rest

/-- One-or-more decimal digits, returned with the remaining input. -/
def takeDigits (cs : List Char) : List Char × List Char :=
  (cs.takeWhile isDigitChar, cs.dropWhile isDigitChar)

/-- Integer part of a JSON number after the optional sign: `0`, or a
nonzero digit followed by digits (leading zeros are invalid JSON). -/
def parseIntPart (cs : List Char) : Option (List Char × List Char) :=
  match cs with
  | '0' :: rest => some (['0'], rest)
  | c :: _ =>
    if isDigitChar c then
      let (ds, rest) := takeDigits cs
      some (ds, rest)
    else none
  | [] => none

/-- Optional fraction part `.digits`. -/
def parseFracPart (cs : List Char) : Option (List Char × List Char) :=
  match cs with
  | '.' :: rest =>
    let (ds, rest') := takeDigits rest
    if ds.isEmpty then none else some ('.' :: ds, rest')
  | _ => some ([], cs)

/-- Optional exponent part `e[+-]digits`. -/
def parseExpPart (cs : List Char) : Option (List Char × List Char) :=
  match cs with
  | e :: rest =>
    if e = 'e' || e = 'E' then
      match rest with
      | s :: rest' =>
        if s = '+' || s = '-' then
          let (ds, rest'') := takeDigits rest'
          if ds.isEmpty then none else some (e :: s :: ds, rest'')
        else
          let (ds, rest'') := takeDigits rest
          if ds.isEmpty then none else some ([e] ++ ds, rest'')
      | [] => none
    else some ([], cs)
  | [] => some ([], cs)

/-- A JSON number token starting at the head of the input (with optional
leading minus sign); returns its literal text. -/
def parseNumber (cs : List Char) : Option (String × List Char) :=
  let (sign, cs₁) :=
    match cs with
    | '-' :: rest => (['-'], rest)
    | _ => ([], cs)
  match parseIntPart cs₁ with
  | none => none
  | some (ip, cs₂) =>
    match parseFracPart cs₂ with
    | none => none
    | some (fp, cs₃) =>
      match parseExpPart cs₃ with
      | none => none
      | some (ep, cs₄) => some (String.mk (sign ++ ip ++ fp ++ ep), cs₄)

mutual

/-- Parse one JSON value (fuel-indexed recursive descent). -/
def parseValue : Nat → List Char → Option (Json × List Char)
  | 0, _ => none
  | Nat.succ f, cs =>
    match skipWs cs with
    | 'n' :: 'u' :: 'l' :: 'l' :: rest => some (.null, rest)
    | 't' :: 'r' :: 'u' :: 'e' :: rest => some (.bool true, rest)
    | 'f' :: 'a' :: 'l' :: 's' :: 'e' :: rest => some (.bool false, rest)
    | '"' :: rest =>
      match parseStrBody [] rest with
      | none => none
      | some (s, rest') => some (.str s, rest')
    | '[' :: rest =>
      match skipWs rest with
      | ']' :: rest' => some (.arr [], rest')
      | rest' =>
        match parseElems f rest' with
        | none => none
        | some (vs, rest'') => some (.arr vs, rest'')
    | '\x7b' :: rest =>
      match skipWs rest with
      | '\x7d' :: rest' => some (.obj [], rest')
      | rest' =>
        match parseFields f rest' with
        | none => none
        | some (kvs, rest'') => some (.obj kvs, rest'')
    | rest =>
      match parseNumber rest with
      | none => none
      | some (lit, rest') => some (.num lit, rest')

/-- Parse the comma-separated elements of a nonempty JSON array, up to and
including the closing bracket. -/
def parseElems : Nat → List Char → Option (List Json × List Char)
  | 0, _ => none
  | Nat.succ f, cs =>
    match parseValue f cs with
    | none => none
    | some (v, rest) =>
      match skipWs rest with
      | ',' :: rest' =>
        match parseElems f rest' with
        | none => none
        | some (vs, rest'') => some (v :: vs, rest'')
      | ']' :: rest' => some ([v], rest')
      | _ => none

/-- Parse the comma-separated members of a nonempty JSON object, up to and
including the closing brace. -/
def parseFields : Nat → List Char → Option (List (String × Json) × List Char)
  | 0, _ => none
  | Nat.succ f, cs =>
    match skipWs cs with
    | '"' :: rest =>
      match parseStrBody [] rest with
      | none => none
      | some (k, rest₁) =>
        match skipWs rest₁ with
        | ':' :: rest₂ =>
          match parseValue f rest₂ with
          | none => none
          | some (v, rest₃) =>
            match skipWs rest₃ with
            | ',' :: rest₄ =>
              match parseFields f rest₄ with
              | none => none
              | some (kvs, rest₅) => some ((k, v) :: kvs, rest₅)
            | '\x7d' :: rest₄ => some ([(k, v)], rest₄)
            | _ => none
        | _ => none
    | _ => none

end

/-- Model of Python `json.loads`: parse one JSON document and require the
remaining input to be whitespace. -/
def parseJson (s : String) : Option Json :=
  match parseValue (2 * s.data.length + 4) s.data with
  | none => none
  | some (v, rest) => if (skipWs rest).isEmpty then some v else none

/-! ### The object store and `AnalyticsService.load_metrics` (`analytics.py`, `storage.py`) -/

/-- `S3Storage.key`: namespace an object name under the configured key
p: with a prefix `p/name`, without one just `name`. -/
def storageKey (p name : String) : String :=
  if p = "" then name else p ++ "/" ++ name

/-- The store is modelled at the level `load_metrics` observes it: a map
from keys to object text, as an association list. -/
abbrev Store := List (String × String)

/-- `S3Storage.download_text`: `none` models the call raising
(no such key, connectivity failure, and so on). -/
def downloadText (st : Store) (key : String) : Option String :=
  match st with
  | [] => none
  | (k, v) :: rest => if k = key then some v else downloadText rest key

/-- The well-known metrics key under the default settings
(`s3_prefix = "aggregates"`). -/
def metricsKey : String :=
  storageKey "aggregates" "metrics_by_day.jsonl"

/-- The non-blank stripped lines of the downloaded text
(`for line in text.splitlines(): line = line.strip(); if not line: continue`). -/
def cleanLines (text : String) : List String :=
  ((splitLines text).map pyStrip).filter (fun l => l ≠ "")

/-- The `rows.append(json.loads(line))` loop: parse every line, stopping
with `none` (a raised `JSONDecodeError`) at the first malformed one. -/
def parseAll : List String → Option (List Json)
  | [] => some []
  | l :: rest =>
    match parseJson l with
    | none => none
    | some v =>
      match parseAll rest with
      | none => none
      | some vs => some (v :: vs)

/-- `AnalyticsService.load_metrics`.  The `try`/`except` covers only the
download: a failed download yields the empty row list.  Each surviving line
then goes through `json.loads` *outside* any handler, so the overall result
is `none` (a raised `JSONDecodeError`) as soon as one line fails to parse. -/
def load_metrics (st : Store) : Option (List Json) :=
  match downloadText st metricsKey with
  | none => some []
  | some text => parseAll (cleanLines text)

/-! ### The aggregation job (`jobs/transform_events.py`) -/

/-- A raw input event, one line of the newline-delimited input file. -/
structure RawEvent where
  event_id : String
  user_id : String
  event_type : String
  timestamp : String
deriving DecidableEq, Repr

/-- One aggregated output row of the job
(`groupBy("event_date", "event_type")` with `count` and
`approx_count_distinct("user_id")`; the approximate distinct count is
modelled as the exact distinct count, which the spec explicitly allows). -/
structure MetricRow where
  event_date : Date
  event_type : String
  event_count : Nat
  unique_users : Nat
deriving DecidableEq, Repr

/-- Timestamp parsing with Spark pattern `yyyy-MM-dd'T'HH:mm:ssX`, reduced
to the calendar date (`to_date`): dashed date, literal `T`, two-digit
hour/minute/second in range, and an ISO zone designator (`Z`, or a sign
with a two-digit hour optionally followed by minutes).  The session time
zone is UTC, so an offset can shift the date; `utcShift` applies it. -/
def nextDay (d : Date) : Date :=
  if d.day < daysInMonth d.year d.month then ⟨d.year, d.month, d.day + 1⟩
  else if d.month < 12 then ⟨d.year, d.month + 1, 1⟩
  else ⟨d.year + 1, 1, 1⟩

/-- The previous calendar day. -/
def prevDay (d : Date) : Date :=
  if 1 < d.day then ⟨d.year, d.month, d.day - 1⟩
  else if 1 < d.month then ⟨d.year, d.month - 1, daysInMonth d.year (d.month - 1)⟩
  else ⟨d.year - 1, 12, daysInMonth (d.year - 1) 12⟩

/-- Shift a local date to the UTC date: `mins` is the local time of day in
minutes, `offMins` the zone offset in minutes (positive east). -/
def utcShift (d : Date) (mins : Int) (offMins : Int) : Date :=
  let t := mins - offMins
  if t < 0 then prevDay d else if 1440 ≤ t then nextDay d else d

/-- Parse the `X` zone designator; returns the offset in minutes. -/
def parseZone (cs : List Char) : Option Int :=
  match cs with
  | ['Z'] => some 0
  | [s, h1, h2] =>
    if (s = '+' || s = '-') && isDigitChar h1 && isDigitChar h2 then
      let v : Int := (digitsToNat [h1, h2] : Nat) * 60
      some (if s = '-' then -v else v)
    else none
  | [s, h1, h2, m1, m2] =>
    if (s = '+' || s = '-') && isDigitChar h1 && isDigitChar h2 &&
       isDigitChar m1 && isDigitChar m2 then
      let v : Int := (digitsToNat [h1, h2] : Nat) * 60 + (digitsToNat [m1, m2] : Nat)
      some (if s = '-' then -v else v)
    else none
  | _ => none

/-- `to_date(to_timestamp(timestamp, "yyyy-MM-dd'T'HH:mm:ssX"))` in a UTC
session: the event's UTC calendar date, or `none` when the timestamp fails
to parse. -/
def parseTimestampDate (s : String) : Option Date :=
  match s.data with
  | y1 :: y2 :: y3 :: y4 :: '-' :: mo1 :: mo2 :: '-' :: dd1 :: dd2 :: 'T' ::
    h1 :: h2 :: ':' :: mi1 :: mi2 :: ':' :: s1 :: s2 :: zone =>
    match parseDate (String.mk [y1, y2, y3, y4, '-', mo1, mo2, '-', dd1, dd2]) with
    | none => none
    | some d =>
      if isDigitChar h1 && isDigitChar h2 && isDigitChar mi1 && isDigitChar mi2 &&
         isDigitChar s1 && isDigitChar s2 then
        let hh := digitsToNat [h1, h2]
        let mm := digitsToNat [mi1, mi2]
        let ss := digitsToNat [s1, s2]
        if hh ≤ 23 && mm ≤ 59 && ss ≤ 59 then
          match parseZone zone with
          | none => none
          | some off => some (utcShift d ((hh : Int) * 60 + (mm : Int)) off)
        else none
      else none
  | _ => none

/-- Insert a user into a distinct-user list if not already present. -/
def addUser (users : List String) (u : String) : List String :=
  if u ∈ users then users else users ++ [u]

/-- Add one (already date-stamped) event to the grouped accumulator keyed by
(event_date, event_type). -/
def addToGroups (gs : List ((Date × String) × (Nat × List String)))
    (d : Date) (ty u : String) : List ((Date × String) × (Nat × List String)) :=
  match gs with
  | [] => [((d, ty), (1, [u]))]
  | (k, (c, us)) :: rest =>
    if k = (d, ty) then (k, (c + 1, addUser us u)) :: rest
    else (k, (c, us)) :: addToGroups rest d ty u

/-- Ascending (event_date, event_type) order on output rows
(`orderBy("event_date", "event_type")`). -/
def rowLe (a b : MetricRow) : Prop :=
  dateKey a.event_date < dateKey b.event_date ∨
    (dateKey a.event_date = dateKey b.event_date ∧ strLe a.event_type b.event_type = true)

instance : DecidableRel rowLe := fun a b =>
  inferInstanceAs (Decidable (dateKey a.event_date < dateKey b.event_date ∨
    (dateKey a.event_date = dateKey b.event_date ∧ strLe a.event_type b.event_type = true)))

/-- `transform_events`, spec-modelled at its failure boundary.

Modelled from the spec: the strictness of Spark's `to_timestamp` (whether an
unparseable timestamp raises or yields a null) is fixed by the Spark version
pinned in project metadata that is not under `src/`; the spec states twice
that source behavior is strict — "malformed timestamp on a record is a fatal
error for the whole job run" and "propagated as a fatal failure of the job
run — no partial output is committed".  Accordingly a record whose
timestamp fails to parse makes the whole transformation fail (`none`);
otherwise the events are grouped by (event_date, event_type) with exact
counts and distinct-user counts and sorted ascending.
`datedEvents` stamps each event with its parsed date, failing on the first
malformed timestamp. -/
def datedEvents : List RawEvent → Option (List (Date × RawEvent))
  | [] => some []
  | e :: rest =>
    match parseTimestampDate e.timestamp with
    | none => none
    | some d =>
      match datedEvents rest with
      | none => none
      | some ds => some ((d, e) :: ds)

def transform_events (events : List RawEvent) : Option (List MetricRow) :=
  match datedEvents events with
  | none => none
  | some dated =>
    let gs := dated.foldl (fun acc de => addToGroups acc de.1 de.2.event_type de.2.user_id) []
    some ((gs.map fun g => MetricRow.mk g.1.1 g.1.2 g.2.1 g.2.2.length).insertionSort rowLe)

/-- The committed-objects view of the store for the job: key to uploaded
aggregated rows. -/
abbrev AggStore := List (String × List MetricRow)

/-- Replace-or-append an object at a key (`upload_file` overwrites). -/
def putObj (st : AggStore) (key : String) (rows : List MetricRow) : AggStore :=
  match st with
  | [] => [(key, rows)]
  | (k, v) :: rest => if k = key then (key, rows) :: rest else (k, v) :: putObj rest key rows

/-- `run_job`: transform, write the part file, and upload it under
`storage.key("metrics_by_day.jsonl")`.  A failing transformation raises out
of `run_job` (`none`) before anything is uploaded, so the store is only
changed on success. -/
def run_job (p : String) (events : List RawEvent) (st : AggStore) : Option AggStore :=
  match transform_events events with
  | none => none
  | some rows => some (putObj st (storageKey p "metrics_by_day.jsonl") rows)

/-! ### Document store (`rag.py`): corpus loading -/

/-- A corpus directory, as `_load_documents` observes it: the (filename,
file text) pairs of the directory entries, in arbitrary enumeration order. -/
abbrev DirListing := List (String × String)

/-- Whether `Path.glob("*.md")` matches a filename: its last three
characters, read in reverse, are `d`, `m`, `.` — that is, it ends in
`.md`.  (pathlib's glob does not special-case hidden files: names with a
leading dot, even `.md` itself, are matched.) -/
def isMdName (name : String) : Bool :=
  decide (name.data.reverse.take 3 = ['d', 'm', '.'])

/-- Index of the last dot in a name, if any. -/
def lastDotIdx (cs : List Char) : Option Nat :=
  match (cs.reverse.findIdx? (fun c => c = '.')) with
  | none => none
  | some j => some (cs.length - 1 - j)

/-- `pathlib.PurePath.stem`: the filename without its last suffix, where a
suffix is a final `.xyz` part whose dot is neither the first nor the last
character. -/
def stem (name : String) : String :=
  match lastDotIdx name.data with
  | none => name
  | some i =>
    if 0 < i ∧ i < name.data.length - 1 then String.mk (name.data.take i) else name

/-- Order in which `sorted` lists the globbed paths: lexicographic on the
filename (all paths share the directory component). -/
def entryRel (a b : String × String) : Prop :=
  strLe a.1 b.1 = true

instance : DecidableRel entryRel := fun a b =>
  inferInstanceAs (Decidable (strLe a.1 b.1 = true))

/-- `DocumentStore._load_documents`: glob `*.md`, sort the paths, and store
`(path.stem, text.strip())` for each file.  Python `sorted` is a stable
sort, so a stable insertion sort embeds it faithfully. -/
def loadDocuments (dir : DirListing) : List (String × String) :=
  ((dir.filter fun e => isMdName e.1).insertionSort entryRel).map
    fun e => (stem e.1, pyStrip e.2)

/-- The `/docs` endpoint (`docs_list` in `api/app.py`):
`[doc_id for doc_id, _ in store._documents]`. -/
def listDocumentIds (dir : DirListing) : List String :=
  (loadDocuments dir).map Prod.fst

/-- The sequence `sorted(self.docs_dir.glob("*.md"))` that
`_load_documents` iterates: the matching filenames in sorted order. -/
def loadedFileNames (dir : DirListing) : List String :=
  ((dir.filter fun e => isMdName e.1).insertionSort entryRel).map Prod.fst

/-! ### Document store (`rag.py`): TF-IDF vectors and search -/

/-- ASCII word character (`\w` of the default `token_pattern`). -/
def isWordChar (c : Char) : Bool :=
  c.isAlphanum || c = '_'

/-- Maximal runs of word characters. -/
def wordRunsAux : List Char → List Char → List (List Char)
  | acc, [] => if acc.isEmpty then [] else [acc.reverse]
  | acc, c :: rest =>
    if isWordChar c then wordRunsAux (c :: acc) rest
    else if acc.isEmpty then wordRunsAux [] rest
    else acc.reverse :: wordRunsAux [] rest

/-- The built-in English stop-word list (`stop_words="english"`).  The exact
frozenset ships inside scikit-learn, outside this repository; no theorem
below depends on the membership of this list. -/
def stopWords : List String :=
  ["a", "about", "above", "across", "after", "afterwards", "again", "against",
   "all", "almost", "alone", "along", "already", "also", "although", "always",
   "am", "among", "amongst", "amount", "an", "and", "another", "any", "anyhow",
   "anyone", "anything", "anyway", "anywhere", "are", "around", "as", "at",
   "back", "be", "became", "because", "become", "becomes", "becoming", "been",
   "before", "beforehand", "behind", "being", "below", "beside", "besides",
   "between", "beyond", "bill", "both", "bottom", "but", "by", "call", "can",
   "cannot", "cant", "co", "con", "could", "couldnt", "cry", "de", "describe",
   "detail", "do", "done", "down", "due", "during", "each", "eg", "eight",
   "either", "eleven", "else", "elsewhere", "empty", "enough", "etc", "even",
   "ever", "every", "everyone", "everything", "everywhere", "except", "few",
   "fifteen", "fifty", "fill", "find", "fire", "first", "five", "for",
   "former", "formerly", "forty", "found", "four", "from", "front", "full",
   "further", "get", "give", "go", "had", "has", "hasnt", "have", "he",
   "hence", "her", "here", "hereafter", "hereby", "herein", "hereupon",
   "hers", "herself", "him", "himself", "his", "how", "however", "hundred",
   "i", "ie", "if", "in", "inc", "indeed", "interest", "into", "is", "it",
   "its", "itself", "keep", "last", "latter", "latterly", "least", "less",
   "ltd", "made", "many", "may", "me", "meanwhile", "might", "mill", "mine",
   "more", "moreover", "most", "mostly", "move", "much", "must", "my",
   "myself", "name", "namely", "neither", "never", "nevertheless", "next",
   "nine", "no", "nobody", "none", "noone", "nor", "not", "nothing", "now",
   "nowhere", "of", "off", "often", "on", "once", "one", "only", "onto",
   "or", "other", "others", "otherwise", "our", "ours", "ourselves", "out",
   "over", "own", "part", "per", "perhaps", "please", "put", "rather", "re",
   "same", "see", "seem", "seemed", "seeming", "seems", "serious", "several",
   "she", "should", "show", "side", "since", "sincere", "six", "sixty", "so",
   "some", "somehow", "someone", "something", "sometime", "sometimes",
   "somewhere", "still", "such", "system", "take", "ten", "than", "that",
   "the", "their", "them", "themselves", "then", "thence", "there",
   "thereafter", "thereby", "therefore", "therein", "thereupon", "these",
   "they", "thick", "thin", "third", "this", "those", "though", "three",
   "through", "throughout", "thru", "thus", "to", "together", "too", "top",
   "toward", "towards", "twelve", "twenty", "two", "un", "under", "until",
   "up", "upon", "us", "very", "via", "was", "we", "well", "were", "what",
   "whatever", "when", "whence", "whenever", "where", "whereafter",
   "whereas", "whereby", "wherein", "whereupon", "wherever", "whether",
   "which", "while", "whither", "who", "whoever", "whole", "whom", "whose",
   "why", "will", "with", "within", "without", "would", "yet", "you",
   "your", "yours", "yourself", "yourselves"]

/-- The default `TfidfVectorizer` analyzer: lowercase, extract maximal runs
of word characters of length at least two, drop English stop words. -/
def tokenize (s : String) : List String :=
  (((wordRunsAux [] (s.data.map Char.toLower)).filter fun r => 2 ≤ r.length).map
    String.mk).filter fun t => !(stopWords.contains t)

/-- Sorted-vocabulary order. -/
def vocabRel (a b : String) : Prop :=
  strLe a b = true

instance : DecidableRel vocabRel := fun a b =>
  inferInstanceAs (Decidable (strLe a b = true))

/-- The fitted vocabulary: the distinct analyzer terms of the corpus, in
sorted order. -/
def vocab (docs : List (String × String)) : List String :=
  ((docs.map fun d => tokenize d.2).flatten.dedup).insertionSort vocabRel

/-- Document frequency of a term over the corpus. -/
def dfCount (docs : List (String × String)) (t : String) : Nat :=
  docs.countP fun d => (tokenize d.2).contains t

/-- Smoothed inverse document frequency of the default `TfidfVectorizer`:
`ln((1 + n)/(1 + df)) + 1`. -/
noncomputable def idf (docs : List (String × String)) (t : String) : ℝ :=
  Real.log ((1 + docs.length) / (1 + dfCount docs t)) + 1

/-- The un-normalized TF-IDF vector of a text over the fitted vocabulary:
term count times IDF per vocabulary coordinate.  (`TfidfVectorizer` then
L2-normalizes each row; `cosineSim` below folds that normalization in.) -/
noncomputable def tfidfVec (docs : List (String × String)) (text : String) : List ℝ :=
  (vocab docs).map fun t => ((tokenize text).count t : ℝ) * idf docs t

/-- Dot product of two coordinate lists. -/
def dot (u v : List ℝ) : ℝ :=
  (List.zipWith (fun a b => a * b) u v).sum

/-- `cosine_similarity` composed with the vectorizer's L2 row
normalization: dot product over the product of Euclidean norms.  A zero
vector is left as-is by `sklearn`'s `normalize`, so its similarity is `0`,
which agrees with the `x / 0 = 0` convention of real division here. -/
noncomputable def cosineSim (u v : List ℝ) : ℝ :=
  dot u v / (Real.sqrt (dot u u) * Real.sqrt (dot v v))

/-- The per-document similarity scores of a query, in corpus order
(`cosine_similarity(query_vec, self._matrix).flatten()`). -/
noncomputable def docScores (docs : List (String × String)) (query : String) : List ℝ :=
  docs.map fun d => cosineSim (tfidfVec docs query) (tfidfVec docs d.2)

/-- The `DocumentResult` dataclass. -/
structure DocumentResult where
  doc_id : String
  title : String
  score : ℝ
  snippet : String

/-- First index at which `needle` occurs in `hay` (`str.find`; an empty
needle is found at index 0). -/
def findSub : Nat → List Char → List Char → Option Nat
  | i, hay, needle =>
    if needle.isPrefixOf hay then some i
    else
      match hay with
      | [] => none
      | _ :: t => findSub (i + 1) t needle

/-- `_snippet`: a window of context around the first case-insensitive
occurrence of the query, else the leading text, stripped. -/
def snippet (text query : String) (window : Nat := 160) : String :=
  let lowered := text.data.map Char.toLower
  let q := query.data.map Char.toLower
  match findSub 0 lowered q with
  | none => pyStrip (String.mk (text.data.take window))
  | some pos =>
    let start := pos - window / 4
    let stop := min (start + window) text.data.length
    pyStrip (String.mk ((text.data.drop start).take (stop - start)))

/-- Python `str.title()` (ASCII): uppercase a letter that starts a run of
letters, lowercase the other letters. -/
def titleAux : Bool → List Char → List Char
  | _, [] => []
  | prevAlpha, c :: cs =>
    if c.isAlpha then (if prevAlpha then c.toLower else c.toUpper) :: titleAux true cs
    else c :: titleAux false cs

/-- `doc_id.replace("_", " ").title()`. -/
def titleOf (doc_id : String) : String :=
  String.mk (titleAux false (doc_id.data.map fun c => if c = '_' then ' ' else c))

/-- `sorted(enumerate(scores), key=lambda item: item[1], reverse=True)`:
an enumerated score may precede another iff its score is at least as
large.  A stable sort under this relation is exactly Python's stable
descending sort. -/
def descRel (a b : Nat × ℝ) : Prop :=
  b.2 ≤ a.2

noncomputable instance : DecidableRel descRel := fun a b =>
  inferInstanceAs (Decidable (b.2 ≤ a.2))

/-- `DocumentStore.search`: empty corpus short-circuits to `[]`; otherwise
rank the enumerated scores by descending score (stably) and materialize the
first `top_k` as `DocumentResult`s. -/
noncomputable def search (docs : List (String × String)) (query : String)
    (top_k : Nat) : List DocumentResult :=
  if docs.isEmpty then []
  else
    let ranked := (docScores docs query).enum.insertionSort descRel
    (ranked.take top_k).map fun p =>
      let e := docs.getD p.1 ("", "")
      ⟨e.1, titleOf e.1, p.2, snippet e.2 query⟩

/-! ### Helper lemmas: the string order -/

theorem char_eq_of_toNat_eq {a b : Char} (h : a.toNat = b.toNat) : a = b := by
  apply Char.ext
  exact UInt32.toNat.inj h

theorem strLeAux_total : ∀ cs ds, strLeAux cs ds = true ∨ strLeAux ds cs = true
  | [], _ => Or.inl rfl
  | _ :: _, [] => Or.inr rfl
  | c :: cs, d :: ds => by
    simp only [strLeAux]
    rcases Nat.lt_trichotomy c.toNat d.toNat with h | h | h
    · left; simp [h]
    · rcases strLeAux_total cs ds with ih | ih
      · left; simp [h, ih]
      · right; simp [h, ih]
    · right; simp [h, Nat.lt_asymm h]

theorem strLeAux_trans : ∀ as bs cs,
    strLeAux as bs = true → strLeAux bs cs = true → strLeAux as cs = true
  | [], _, _, _, _ => rfl
  | _ :: _, [], _, h1, _ => by simp [strLeAux] at h1
  | _ :: _, _ :: _, [], _, h2 => by simp [strLeAux] at h2
  | a :: as, b :: bs, c :: cs, h1, h2 => by
    simp only [strLeAux] at h1 h2 ⊢
    split_ifs at h1 h2 ⊢ <;>
      first
        | rfl
        | omega
        | exact strLeAux_trans as bs cs h1 h2

theorem strLeAux_antisymm : ∀ as bs,
    strLeAux as bs = true → strLeAux bs as = true → as = bs
  | [], [], _, _ => rfl
  | [], _ :: _, _, h2 => by simp [strLeAux] at h2
  | _ :: _, [], h1, _ => by simp [strLeAux] at h1
  | a :: as, b :: bs, h1, h2 => by
    simp only [strLeAux] at h1 h2
    split_ifs at h1 h2 with hab hba
    · omega
    · have : a = b := char_eq_of_toNat_eq (by omega)
      rw [this, strLeAux_antisymm as bs h1 h2]

theorem strLe_total (a b : String) : strLe a b = true ∨ strLe b a = true :=
  strLeAux_total a.data b.data

theorem strLe_trans {a b c : String} (h1 : strLe a b = true) (h2 : strLe b c = true) :
    strLe a c = true :=
  strLeAux_trans a.data b.data c.data h1 h2

theorem strLe_antisymm {a b : String} (h1 : strLe a b = true) (h2 : strLe b a = true) :
    a = b := by
  cases a with
  | mk da =>
    cases b with
    | mk db => exact congrArg String.mk (strLeAux_antisymm da db h1 h2)

instance : IsTotal (String × String) entryRel :=
  ⟨fun a b => strLe_total a.1 b.1⟩

instance : IsTrans (String × String) entryRel :=
  ⟨fun _ _ _ h1 h2 => strLe_trans h1 h2⟩

instance : IsTotal String vocabRel :=
  ⟨fun a b => strLe_total a b⟩

instance : IsTrans String vocabRel :=
  ⟨fun _ _ _ h1 h2 => strLe_trans h1 h2⟩

instance : IsTotal (Nat × ℝ) descRel :=
  ⟨fun a b => le_total b.2 a.2⟩

instance : IsTrans (Nat × ℝ) descRel :=
  ⟨fun _ _ _ h1 h2 => le_trans h2 h1⟩

/-! ### Helper lemmas: stability of the descending score sort -/

/-- The ranking discipline the claims describe: strictly larger score first,
ties by original (corpus) position. -/
def rankRel (a b : Nat × ℝ) : Prop :=
  b.2 < a.2 ∨ (b.2 = a.2 ∧ a.1 < b.1)

theorem pairwise_enumFrom_fst_lt {α : Type} (l : List α) :
    ∀ n, (List.enumFrom n l).Pairwise fun a b => a.1 < b.1 := by
  induction l with
  | nil => intro n; simp
  | cons x xs ih =>
    intro n
    refine List.pairwise_cons.mpr ⟨?_, ih (n + 1)⟩
    intro b hb
    have := List.mem_enumFrom hb
    omega

theorem pairwise_enum_fst_lt {α : Type} (l : List α) :
    l.enum.Pairwise fun a b => a.1 < b.1 :=
  pairwise_enumFrom_fst_lt l 0

theorem orderedInsert_rankRel (p : Nat × ℝ) :
    ∀ l : List (Nat × ℝ), l.Pairwise rankRel → l.Pairwise descRel →
      (∀ q ∈ l, p.1 < q.1) → (List.orderedInsert descRel p l).Pairwise rankRel
  | [], _, _, _ => by simp [List.orderedInsert, List.pairwise_cons]
  | q :: t, h1, h2, hp => by
    simp only [List.orderedInsert]
    by_cases hpq : descRel p q
    · rw [if_pos hpq]
      refine List.pairwise_cons.mpr ⟨?_, h1⟩
      intro x hx
      have hxle : x.2 ≤ p.2 := by
        rcases List.mem_cons.mp hx with h | h
        · rw [h]; exact hpq
        · exact le_trans ((List.pairwise_cons.mp h2).1 x h) hpq
      rcases lt_or_eq_of_le hxle with hlt | heq
      · exact Or.inl hlt
      · exact Or.inr ⟨heq, hp x hx⟩
    · rw [if_neg hpq]
      refine List.pairwise_cons.mpr ⟨?_, ?_⟩
      · intro x hx
        rcases (List.mem_orderedInsert descRel).mp hx with h | h
        · subst h
          exact Or.inl (not_le.mp hpq)
        · exact (List.pairwise_cons.mp h1).1 x h
      · exact orderedInsert_rankRel p t (List.pairwise_cons.mp h1).2
          (List.pairwise_cons.mp h2).2 (fun q' hq' => hp q' (List.mem_cons_of_mem q hq'))

theorem insertionSort_rankRel (l : List (Nat × ℝ))
    (h : l.Pairwise fun a b => a.1 < b.1) :
    (l.insertionSort descRel).Pairwise rankRel := by
  induction l with
  | nil => simp
  | cons p t ih =>
    simp only [List.insertionSort]
    refine orderedInsert_rankRel p _ (ih (List.pairwise_cons.mp h).2) ?_ ?_
    · exact List.sorted_insertionSort descRel t
    · intro q hq
      exact (List.pairwise_cons.mp h).1 q
        ((List.perm_insertionSort descRel t).mem_iff.mp hq)

/-! ### Helper lemmas: the summary fold -/

theorem bump_snd_sum (m : List (String × Int)) (k : String) (v : Int) :
    ((bump m k v).map Prod.snd).sum = (m.map Prod.snd).sum + v := by
  induction m with
  | nil => simp [bump]
  | cons e rest ih =>
    obtain ⟨k', v'⟩ := e
    by_cases h : k' = k
    · simp [bump, h]; ring
    · simp [bump, h, ih]; ring

theorem lookupD_bump (m : List (String × Int)) (k : String) (v : Int) (t : String) :
    lookupD (bump m k v) t = lookupD m t + (if k = t then v else 0) := by
  induction m with
  | nil =>
    by_cases h : k = t <;> simp [bump, lookupD, h]
  | cons e rest ih =>
    obtain ⟨k', v'⟩ := e
    by_cases h : k' = k
    · subst h
      by_cases ht : k' = t <;> simp [bump, lookupD, ht]
    · by_cases ht : k' = t
      · subst ht
        have : ¬ k = k' := fun hk => h hk.symm
        simp [bump, h, lookupD, this]
      · simp [bump, h, lookupD, ht, ih]

theorem foldl_summaryStep_total : ∀ (rows : List Row) (acc : SummaryAcc),
    (rows.foldl summaryStep acc).total =
      acc.total + (rows.map fun r => r.event_count.getD 0).sum
  | [], acc => by simp
  | r :: rs, acc => by
    simp only [List.foldl_cons, List.map_cons, List.sum_cons]
    rw [foldl_summaryStep_total rs (summaryStep acc r)]
    simp [summaryStep]
    ring

theorem foldl_summaryStep_uus : ∀ (rows : List Row) (acc : SummaryAcc),
    (rows.foldl summaryStep acc).uus =
      acc.uus + (rows.map fun r => r.unique_users.getD 0).sum
  | [], acc => by simp
  | r :: rs, acc => by
    simp only [List.foldl_cons, List.map_cons, List.sum_cons]
    rw [foldl_summaryStep_uus rs (summaryStep acc r)]
    simp [summaryStep]
    ring

theorem foldl_summaryStep_types_sum : ∀ (rows : List Row) (acc : SummaryAcc),
    (((rows.foldl summaryStep acc).types.map Prod.snd).sum : Int) =
      (acc.types.map Prod.snd).sum + (rows.map fun r => r.event_count.getD 0).sum
  | [], acc => by simp
  | r :: rs, acc => by
    simp only [List.foldl_cons, List.map_cons, List.sum_cons]
    rw [foldl_summaryStep_types_sum rs (summaryStep acc r)]
    simp [summaryStep, bump_snd_sum]
    ring

theorem foldl_summaryStep_types_lookup : ∀ (rows : List Row) (acc : SummaryAcc) (t : String),
    lookupD (rows.foldl summaryStep acc).types t =
      lookupD acc.types t +
        ((rows.filter fun r => effType r = t).map fun r => r.event_count.getD 0).sum
  | [], acc, t => by simp
  | r :: rs, acc, t => by
    simp only [List.foldl_cons]
    rw [foldl_summaryStep_types_lookup rs (summaryStep acc r) t]
    by_cases h : effType r = t
    · simp [summaryStep, lookupD_bump, h, List.filter_cons]
      ring
    · simp [summaryStep, lookupD_bump, h, List.filter_cons]

theorem foldl_summaryStep_dates : ∀ (rows : List Row) (acc : SummaryAcc),
    (rows.foldl summaryStep acc).dates = acc.dates ++ parsedDates rows
  | [], acc => by simp [parsedDates]
  | r :: rs, acc => by
    simp only [List.foldl_cons]
    rw [foldl_summaryStep_dates rs (summaryStep acc r)]
    have : parsedDates (r :: rs) = (rowDate r).toList ++ parsedDates rs := by
      cases h : rowDate r <;> simp [parsedDates, List.filterMap_cons, h]
    rw [this, summaryStep]
    simp [List.append_assoc]

theorem foldl_dateMin_mem : ∀ (ds : List Date) (d : Date), ds.foldl dateMin d ∈ d :: ds
  | [], d => by simp
  | h :: t, d => by
    have ih := foldl_dateMin_mem t (dateMin d h)
    simp only [List.foldl_cons]
    rcases List.mem_cons.mp ih with hh | hh
    · rw [hh]
      unfold dateMin
      split_ifs <;> simp
    · simp [List.mem_cons_of_mem, hh]

theorem foldl_dateMax_mem : ∀ (ds : List Date) (d : Date), ds.foldl dateMax d ∈ d :: ds
  | [], d => by simp
  | h :: t, d => by
    have ih := foldl_dateMax_mem t (dateMax d h)
    simp only [List.foldl_cons]
    rcases List.mem_cons.mp ih with hh | hh
    · rw [hh]
      unfold dateMax
      split_ifs <;> simp
    · simp [List.mem_cons_of_mem, hh]

theorem dateMin_key_le (d h : Date) :
    dateKey (dateMin d h) ≤ dateKey d ∧ dateKey (dateMin d h) ≤ dateKey h := by
  unfold dateMin
  split_ifs with hc <;> omega

theorem dateMax_key_ge (d h : Date) :
    dateKey d ≤ dateKey (dateMax d h) ∧ dateKey h ≤ dateKey (dateMax d h) := by
  unfold dateMax
  split_ifs with hc <;> omega

theorem foldl_dateMin_le : ∀ (ds : List Date) (d x : Date),
    x ∈ d :: ds → dateKey (ds.foldl dateMin d) ≤ dateKey x
  | [], d, x, hx => by
    simp at hx
    simp [hx]
  | h :: t, d, x, hx => by
    simp only [List.foldl_cons]
    rcases List.mem_cons.mp hx with rfl | hx'
    · exact le_trans
        (foldl_dateMin_le t (dateMin x h) (dateMin x h) (List.mem_cons_self _ _))
        (dateMin_key_le x h).1
    · rcases List.mem_cons.mp hx' with rfl | hx''
      · exact le_trans
          (foldl_dateMin_le t (dateMin d x) (dateMin d x) (List.mem_cons_self _ _))
          (dateMin_key_le d x).2
      · exact foldl_dateMin_le t (dateMin d h) x (List.mem_cons_of_mem _ hx'')

theorem foldl_dateMax_ge : ∀ (ds : List Date) (d x : Date),
    x ∈ d :: ds → dateKey x ≤ dateKey (ds.foldl dateMax d)
  | [], d, x, hx => by
    simp at hx
    simp [hx]
  | h :: t, d, x, hx => by
    simp only [List.foldl_cons]
    rcases List.mem_cons.mp hx with rfl | hx'
    · exact le_trans (dateMax_key_ge x h).1
        (foldl_dateMax_ge t (dateMax x h) (dateMax x h) (List.mem_cons_self _ _))
    · rcases List.mem_cons.mp hx' with rfl | hx''
      · exact le_trans (dateMax_key_ge d x).2
          (foldl_dateMax_ge t (dateMax d x) (dateMax d x) (List.mem_cons_self _ _))
      · exact foldl_dateMax_ge t (dateMax d h) x (List.mem_cons_of_mem _ hx'')

/-! ### Helper lemmas: failure propagation in the parsing loops -/

theorem parseAll_eq_none_of_mem : ∀ (l : List String) (x : String),
    x ∈ l → parseJson x = none → parseAll l = none
  | [], x, hx, _ => absurd hx (List.not_mem_nil x)
  | a :: t, x, hx, hpx => by
    rcases List.mem_cons.mp hx with rfl | hx'
    · simp [parseAll, hpx]
    · have hrec := parseAll_eq_none_of_mem t x hx' hpx
      unfold parseAll
      cases ha : parseJson a
      · rfl
      · rw [hrec]

theorem datedEvents_eq_none_of_mem : ∀ (l : List RawEvent) (e : RawEvent),
    e ∈ l → parseTimestampDate e.timestamp = none → datedEvents l = none
  | [], e, he, _ => absurd he (List.not_mem_nil e)
  | a :: t, e, he, hpe => by
    rcases List.mem_cons.mp he with rfl | he'
    · simp [datedEvents, hpe]
    · have hrec := datedEvents_eq_none_of_mem t e he' hpe
      unfold datedEvents
      cases ha : parseTimestampDate a.timestamp
      · rfl
      · rw [hrec]

/-! ### Claim C5 -/

/-- **C5.** For every store state in which downloading the known metrics key
fails for any reason (including the key being absent), `load_metrics`
returns an empty sequence rather than raising an error. -/
theorem claim_C5_download_failure_gives_empty (st : Store)
    (h : downloadText st metricsKey = none) : load_metrics st = some [] := by
  unfold load_metrics
  rw [h]

/-- Witness for C5: the empty store has no object at the metrics key, and
`load_metrics` on it is the empty row list. -/
theorem claim_C5_witness : load_metrics [] = some [] :=
  claim_C5_download_failure_gives_empty [] rfl

/-! ### Claim C1 -/

/-- **C1, counterexample.**  The claim says a malformed non-blank line is
dropped and the successfully parsed objects of the remaining lines are
returned — for the one-line text "not json" that would be the empty list of
rows.  Instead `load_metrics` propagates the `json.loads` failure (`none`,
a raised exception), which is not a returned row list at all. -/
theorem claim_C1_counterexample :
    load_metrics [(metricsKey, "not json")] = none ∧
    (cleanLines "not json").filterMap parseJson = [] ∧
    (none : Option (List Json)) ≠ some [] :=
  ⟨rfl, rfl, by simp⟩

/-- **C1, amended.**  If the downloaded metrics text has at least one
non-blank line that is not valid JSON, `load_metrics` does **not** drop the
line: the whole call raises (`none`).  Blank lines are still skipped, and
only download failures are converted into an empty result. -/
theorem claim_C1_amended_malformed_line_raises (st : Store) (text : String)
    (hdl : downloadText st metricsKey = some text)
    (hbad : ∃ line ∈ cleanLines text, parseJson line = none) :
    load_metrics st = none := by
  obtain ⟨line, hmem, hnone⟩ := hbad
  unfold load_metrics
  rw [hdl]
  exact parseAll_eq_none_of_mem _ line hmem hnone

/-- Witness for the amended C1 at a concrete store whose metrics object has
a valid first line and a malformed second line. -/
theorem claim_C1_amended_witness :
    load_metrics [(metricsKey, "null\nnot json")] = none :=
  claim_C1_amended_malformed_line_raises _ "null\nnot json" rfl
    ⟨"not json", by decide, rfl⟩

/-! ### Claim C3 -/

/-- **C3** (settled against the spec-modelled strict timestamp semantics of
`transform_events`): a raw event whose timestamp fails to parse makes the
whole job run fail, and `run_job` commits nothing to the store — there is
no partial result in which the malformed record is skipped. -/
theorem claim_C3_malformed_timestamp_fatal (p : String) (events : List RawEvent)
    (st : AggStore) (hbad : ∃ e ∈ events, parseTimestampDate e.timestamp = none) :
    run_job p events st = none := by
  obtain ⟨e, hmem, hnone⟩ := hbad
  unfold run_job transform_events
  rw [datedEvents_eq_none_of_mem events e hmem hnone]

/-- Witness for C3: one event with an unparseable timestamp aborts the run
under the default settings, with no object committed. -/
theorem claim_C3_witness :
    run_job "aggregates" [⟨"1", "u1", "page_view", "not-a-timestamp"⟩] [] = none :=
  claim_C3_malformed_timestamp_fatal "aggregates" _ []
    ⟨⟨"1", "u1", "page_view", "not-a-timestamp"⟩, by decide, rfl⟩

/-! ### Claim C2 -/

/-- **C2.** For every list of metric rows, the summary satisfies
`total_events = Σ event_types.values()`, and each bucket of `event_types`
holds exactly the summed `event_count` of the rows whose effective type
(the row's `event_type`, or "unknown" when absent or empty) is that
bucket's key — so every row's count lands in `total_events` and in exactly
one bucket. -/
theorem claim_C2_total_events_invariant (rows : List Row) :
    (summary rows).total_events = ((summary rows).event_types.map Prod.snd).sum ∧
    ∀ t : String, lookupD (summary rows).event_types t =
      ((rows.filter fun r => effType r = t).map fun r => r.event_count.getD 0).sum := by
  constructor
  · show (rows.foldl summaryStep ⟨0, 0, [], []⟩).total =
      ((rows.foldl summaryStep ⟨0, 0, [], []⟩).types.map Prod.snd).sum
    rw [foldl_summaryStep_total, foldl_summaryStep_types_sum]
    simp
  · intro t
    show lookupD (rows.foldl summaryStep ⟨0, 0, [], []⟩).types t = _
    rw [foldl_summaryStep_types_lookup]
    simp [lookupD]

/-! ### Claim C4 -/

/-- **C4.** `summary()` omits `date_range` exactly when zero rows have a
parseable (truthy) ISO `event_date`; otherwise it is
`(isoformat of the minimum parsed date, isoformat of the maximum)`.  Rows
whose date fails to parse are excluded only from the range: their counts
still contribute to `total_events`, `event_types` (previous claim's sums
range over all rows) and `daily_unique_users_sum`. -/
theorem claim_C4_date_range (rows : List Row) :
    ((summary rows).dates = none ↔ parsedDates rows = []) ∧
    (∀ d ds, parsedDates rows = d :: ds →
      ∃ mn mx, mn ∈ parsedDates rows ∧ mx ∈ parsedDates rows ∧
        (∀ x ∈ parsedDates rows, dateKey mn ≤ dateKey x ∧ dateKey x ≤ dateKey mx) ∧
        (summary rows).dates = some (isoformat mn, isoformat mx)) ∧
    (summary rows).total_events = (rows.map fun r => r.event_count.getD 0).sum ∧
    (summary rows).daily_unique_users_sum = (rows.map fun r => r.unique_users.getD 0).sum := by
  have hd : (rows.foldl summaryStep ⟨0, 0, [], []⟩).dates = parsedDates rows := by
    rw [foldl_summaryStep_dates]
    simp
  refine ⟨?_, ?_, ?_, ?_⟩
  · simp only [summary]
    rw [hd]
    cases parsedDates rows <;> simp
  · intro d ds hpd
    refine ⟨ds.foldl dateMin d, ds.foldl dateMax d, ?_, ?_, ?_, ?_⟩
    · rw [hpd]; exact foldl_dateMin_mem ds d
    · rw [hpd]; exact foldl_dateMax_mem ds d
    · intro x hx
      rw [hpd] at hx
      exact ⟨foldl_dateMin_le ds d x hx, foldl_dateMax_ge ds d x hx⟩
    · simp only [summary]
      rw [hd, hpd]
  · show (rows.foldl summaryStep ⟨0, 0, [], []⟩).total = _
    rw [foldl_summaryStep_total]
    simp
  · show (rows.foldl summaryStep ⟨0, 0, [], []⟩).uus = _
    rw [foldl_summaryStep_uus]
    simp

/-- Witness for C4 at a concrete row list whose middle row has an
unparseable date: the range comes from the two parseable dates while all
three counts are totalled. -/
theorem claim_C4_witness :
    ∃ mn mx,
      mn ∈ parsedDates
        [⟨some "2026-01-31", some "a", some 1, some 2⟩,
         ⟨some "bad-date", some "b", some 3, some 4⟩,
         ⟨some "2026-01-30", none, some 5, some 6⟩] ∧
      mx ∈ parsedDates
        [⟨some "2026-01-31", some "a", some 1, some 2⟩,
         ⟨some "bad-date", some "b", some 3, some 4⟩,
         ⟨some "2026-01-30", none, some 5, some 6⟩] ∧
      (∀ x ∈ parsedDates
        [⟨some "2026-01-31", some "a", some 1, some 2⟩,
         ⟨some "bad-date", some "b", some 3, some 4⟩,
         ⟨some "2026-01-30", none, some 5, some 6⟩],
        dateKey mn ≤ dateKey x ∧ dateKey x ≤ dateKey mx) ∧
      (summary
        [⟨some "2026-01-31", some "a", some 1, some 2⟩,
         ⟨some "bad-date", some "b", some 3, some 4⟩,
         ⟨some "2026-01-30", none, some 5, some 6⟩]).dates =
        some (isoformat mn, isoformat mx) :=
  (claim_C4_date_range _).2.1 ⟨2026, 1, 31⟩ [⟨2026, 1, 30⟩] (by decide)

/-! ### Helper lemmas: filenames and sorted directory listings -/

theorem sorted_perm_nodup_eq : ∀ (l₁ l₂ : List (String × String)),
    l₁.Perm l₂ → l₁.Pairwise entryRel → l₂.Pairwise entryRel →
    (l₁.map Prod.fst).Nodup → l₁ = l₂
  | [], _, hperm, _, _, _ => hperm.nil_eq
  | _ :: _, [], hperm, _, _, _ => by
    have := hperm.length_eq
    simp at this
  | a :: t₁, b :: t₂, hperm, h1, h2, hnd => by
    have hab : a = b := by
      have ha : a ∈ b :: t₂ := hperm.mem_iff.mp (List.mem_cons_self a t₁)
      rcases List.mem_cons.mp ha with h | hat2
      · exact h
      · have hba : entryRel b a := (List.pairwise_cons.mp h2).1 a hat2
        have hb : b ∈ a :: t₁ := hperm.symm.mem_iff.mp (List.mem_cons_self b t₂)
        rcases List.mem_cons.mp hb with h' | hbt1
        · exact h'.symm
        · have hab' : entryRel a b := (List.pairwise_cons.mp h1).1 b hbt1
          have hname : a.1 = b.1 := strLe_antisymm hab' hba
          exfalso
          have hmem : a.1 ∈ t₁.map Prod.fst := by
            rw [hname]
            exact List.mem_map_of_mem Prod.fst hbt1
          rw [List.map_cons] at hnd
          exact (List.nodup_cons.mp hnd).1 hmem
    subst hab
    have ht := hperm.cons_inv
    have hrec := sorted_perm_nodup_eq t₁ t₂ ht (List.pairwise_cons.mp h1).2
      (List.pairwise_cons.mp h2).2
      (by rw [List.map_cons] at hnd; exact (List.nodup_cons.mp hnd).2)
    rw [hrec]

/-! ### Claim C8 -/

/-- **C8.** For every query string and every `top_k`, `search` on an empty
corpus returns the empty list. -/
theorem claim_C8_empty_corpus (query : String) (top_k : Nat) :
    search [] query top_k = [] := by
  simp [search]

/-! ### Claim C6 -/

/-- **C6, counterexample.**  A plain-text file `notes.txt` is a text file in
the corpus directory, yet the built index has no document at all: only
`*.md` files are globbed, so `notes.txt` is neither searchable nor
listable, against the claim that every text file becomes a document. -/
theorem claim_C6_counterexample :
    listDocumentIds [("notes.txt", "hello")] = [] := by
  decide

/-- **C6, amended.**  The index is built from exactly the Markdown
(`*.md`) files of the configured directory: every such file is listed
under its stem as `doc_id`, and every loaded document comes from such a
file, carrying its stripped text. -/
theorem claim_C6_amended (dir : DirListing) :
    (∀ e ∈ dir, isMdName e.1 = true → stem e.1 ∈ listDocumentIds dir) ∧
    (∀ d ∈ loadDocuments dir,
      ∃ e ∈ dir, isMdName e.1 = true ∧ d = (stem e.1, pyStrip e.2)) := by
  constructor
  · intro e he hmd
    unfold listDocumentIds loadDocuments
    have hmem : e ∈ dir.filter fun x => isMdName x.1 := List.mem_filter.mpr ⟨he, hmd⟩
    have hsort : e ∈ (dir.filter fun x => isMdName x.1).insertionSort entryRel :=
      (List.perm_insertionSort entryRel _).mem_iff.mpr hmem
    have h1 := List.mem_map_of_mem (fun x => (stem x.1, pyStrip x.2)) hsort
    have h2 := List.mem_map_of_mem Prod.fst h1
    simpa using h2
  · intro d hd
    unfold loadDocuments at hd
    obtain ⟨e, he, heq⟩ := List.mem_map.mp hd
    have he' : e ∈ dir.filter fun x => isMdName x.1 :=
      (List.perm_insertionSort entryRel _).mem_iff.mp he
    obtain ⟨hedir, hmd⟩ := List.mem_filter.mp he'
    exact ⟨e, hedir, hmd, heq.symm⟩

/-- Witness for the amended C6: in a directory holding `b.md`, `a.md` and
`notes.txt`, the stem of `a.md` is a listed document id. -/
theorem claim_C6_witness :
    ("a" : String) ∈ listDocumentIds [("b.md", "y"), ("a.md", "x"), ("notes.txt", "z")] :=
  (claim_C6_amended _).1 ("a.md", "x") (by decide) (by decide)

/-! ### Claim C10 -/

/-- **C10, counterexample.**  With files `a.md` and `a-b.md` the ids come
out as `["a-b", "a"]` — sorted by *filename* (`a-b.md` < `a.md` because
`-` precedes `.`), which is not lexicographic order of the doc_ids
themselves (`"a"` < `"a-b"`). -/
theorem claim_C10_counterexample :
    listDocumentIds [("a.md", "x"), ("a-b.md", "y")] = ["a-b", "a"] ∧
    ¬ List.Pairwise (fun a b => strLe a b = true)
        (listDocumentIds [("a.md", "x"), ("a-b.md", "y")]) := by
  refine ⟨by decide, ?_⟩
  intro hpair
  rw [(by decide : listDocumentIds [("a.md", "x"), ("a-b.md", "y")] = ["a-b", "a"])] at hpair
  have h := (List.pairwise_cons.mp hpair).1 "a" (by simp)
  exact absurd h (by decide)

/-- **C10, amended.**  The corpus order is lexicographic order of the
document *filenames*: loading is independent of filesystem enumeration
order (any permutation of a duplicate-free directory loads identically),
the globbed filenames are traversed in sorted order, and the listed ids
are exactly the stems of the filenames in that order — which, as the
counterexample shows, need not be lexicographic order of the ids
themselves. -/
theorem claim_C10_amended (dir dir' : DirListing) (hperm : dir.Perm dir')
    (hnd : (dir.map Prod.fst).Nodup) :
    listDocumentIds dir = listDocumentIds dir' ∧
    (loadedFileNames dir).Pairwise (fun a b => strLe a b = true) ∧
    listDocumentIds dir = (loadedFileNames dir).map stem := by
  refine ⟨?_, ?_, ?_⟩
  · unfold listDocumentIds loadDocuments
    have hs : (dir.filter fun e => isMdName e.1).insertionSort entryRel =
        (dir'.filter fun e => isMdName e.1).insertionSort entryRel := by
      apply sorted_perm_nodup_eq
      · exact ((List.perm_insertionSort entryRel _).trans
          (hperm.filter _)).trans (List.perm_insertionSort entryRel _).symm
      · exact List.sorted_insertionSort entryRel _
      · exact List.sorted_insertionSort entryRel _
      · have hsub : ((dir.filter fun e => isMdName e.1).map Prod.fst).Nodup :=
          List.Nodup.sublist ((List.filter_sublist dir).map Prod.fst) hnd
        exact (((List.perm_insertionSort entryRel _).map Prod.fst).nodup_iff).mpr hsub
    rw [hs]
  · unfold loadedFileNames
    rw [List.pairwise_map]
    exact List.sorted_insertionSort entryRel _
  · unfold listDocumentIds loadDocuments loadedFileNames
    rw [List.map_map, List.map_map]
    rfl

/-- Witness for the amended C10: two enumeration orders of the same
two-file directory list identically, the globbed filenames come out
sorted, and the ids are their stems in that order. -/
theorem claim_C10_witness :
    listDocumentIds [("b.md", "B"), ("a.md", "A")] =
      listDocumentIds [("a.md", "A"), ("b.md", "B")] ∧
    (loadedFileNames [("b.md", "B"), ("a.md", "A")]).Pairwise
      (fun a b => strLe a b = true) ∧
    listDocumentIds [("b.md", "B"), ("a.md", "A")] =
      (loadedFileNames [("b.md", "B"), ("a.md", "A")]).map stem :=
  claim_C10_amended _ _ (by decide) (by decide)

/-! ### Helper lemmas: TF-IDF vectors and cosine similarity -/

theorem idf_nonneg (docs : List (String × String)) (t : String) : 0 ≤ idf docs t := by
  unfold idf
  have hdf := List.countP_le_length (fun d => (tokenize d.2).contains t) (l := docs)
  have h1 : (1 : ℝ) ≤ (1 + docs.length) / (1 + dfCount docs t) := by
    rw [one_le_div (by positivity)]
    have hc : (dfCount docs t : ℝ) ≤ (docs.length : ℝ) := by exact_mod_cast hdf
    linarith
  have := Real.log_nonneg h1
  linarith

theorem tfidfVec_nonneg (docs : List (String × String)) (text : String) :
    ∀ x ∈ tfidfVec docs text, 0 ≤ x := by
  intro x hx
  obtain ⟨t, -, rfl⟩ := List.mem_map.mp hx
  exact mul_nonneg (by positivity) (idf_nonneg docs t)

theorem dot_nonneg : ∀ (u v : List ℝ), (∀ x ∈ u, 0 ≤ x) → (∀ x ∈ v, 0 ≤ x) →
    0 ≤ dot u v
  | [], _, _, _ => by simp [dot]
  | _ :: _, [], _, _ => by simp [dot]
  | a :: u, b :: v, hu, hv => by
    simp only [dot, List.zipWith_cons_cons, List.sum_cons]
    have h1 : 0 ≤ a * b := mul_nonneg (hu a (by simp)) (hv b (by simp))
    have h2 : 0 ≤ (List.zipWith (fun a b => a * b) u v).sum :=
      dot_nonneg u v (fun x hx => hu x (by simp [hx])) (fun x hx => hv x (by simp [hx]))
    linarith

theorem dot_eq_sum : ∀ u v : List ℝ,
    dot u v = ∑ i ∈ Finset.range (min u.length v.length), u.getD i 0 * v.getD i 0
  | [], v => by simp [dot]
  | _ :: _, [] => by simp [dot]
  | a :: u, b :: v => by
    simp only [dot, List.zipWith_cons_cons, List.sum_cons, List.length_cons]
    rw [show min (u.length + 1) (v.length + 1) = min u.length v.length + 1 by omega]
    rw [Finset.sum_range_succ']
    simp only [List.getD_cons_succ, List.getD_cons_zero]
    rw [← dot_eq_sum u v]
    unfold dot
    ring

theorem dot_le_sqrt_mul_sqrt (u v : List ℝ) (hlen : u.length = v.length) :
    dot u v ≤ Real.sqrt (dot u u) * Real.sqrt (dot v v) := by
  have h1 : dot u v = ∑ i ∈ Finset.range u.length, u.getD i 0 * v.getD i 0 := by
    rw [dot_eq_sum, hlen, min_self, ← hlen]
  have h2 : dot u u = ∑ i ∈ Finset.range u.length, u.getD i 0 ^ 2 := by
    rw [dot_eq_sum, min_self]
    exact Finset.sum_congr rfl fun i _ => (pow_two _).symm
  have h3 : dot v v = ∑ i ∈ Finset.range u.length, v.getD i 0 ^ 2 := by
    rw [dot_eq_sum, min_self, hlen]
    exact Finset.sum_congr rfl fun i _ => (pow_two _).symm
  rw [h1, h2, h3]
  exact Real.sum_mul_le_sqrt_mul_sqrt _ _ _

theorem cosineSim_nonneg (u v : List ℝ) (hu : ∀ x ∈ u, 0 ≤ x)
    (hv : ∀ x ∈ v, 0 ≤ x) : 0 ≤ cosineSim u v :=
  div_nonneg (dot_nonneg u v hu hv)
    (mul_nonneg (Real.sqrt_nonneg _) (Real.sqrt_nonneg _))

theorem cosineSim_le_one (u v : List ℝ) (hlen : u.length = v.length) :
    cosineSim u v ≤ 1 := by
  unfold cosineSim
  rcases eq_or_lt_of_le
      (mul_nonneg (Real.sqrt_nonneg (dot u u)) (Real.sqrt_nonneg (dot v v))) with h0 | hpos
  · rw [← h0, div_zero]
    norm_num
  · rw [div_le_one hpos]
    exact dot_le_sqrt_mul_sqrt u v hlen

/-! ### Claim C9 -/

/-- **C9.** Every score of every result returned by `search` lies in the
closed interval [0, 1]: each score is the cosine similarity of two TF-IDF
vectors with nonnegative coordinates, bounded by Cauchy-Schwarz (with a
zero-norm similarity evaluating to 0). -/
theorem claim_C9_scores_in_unit_interval (docs : List (String × String))
    (query : String) (top_k : Nat) :
    List.Forall (fun r => 0 ≤ r.score ∧ r.score ≤ 1) (search docs query top_k) := by
  rw [List.forall_iff_forall_mem]
  intro r hr
  by_cases hie : docs.isEmpty
  · simp [search, hie] at hr
  · simp only [search, if_neg hie] at hr
    obtain ⟨p, hp, rfl⟩ := List.mem_map.mp hr
    have hpL : p ∈ (docScores docs query).enum :=
      (List.perm_insertionSort descRel _).mem_iff.mp ((List.take_sublist _ _).subset hp)
    have hsnd : p.2 ∈ docScores docs query := by
      have := List.mem_map_of_mem Prod.snd hpL
      rwa [List.enum_map_snd] at this
    obtain ⟨d, -, hdeq⟩ := List.mem_map.mp hsnd
    constructor
    · show 0 ≤ p.2
      rw [← hdeq]
      exact cosineSim_nonneg _ _ (tfidfVec_nonneg docs query) (tfidfVec_nonneg docs d.2)
    · show p.2 ≤ 1
      rw [← hdeq]
      exact cosineSim_le_one _ _ (by simp [tfidfVec])

/-! ### Claim C7 -/

/-- **C7.** On a non-empty corpus (with the distinct doc_ids every loaded
corpus has), `search` returns at most `top_k` results, ordered by
non-increasing score, and two results with equal scores appear in corpus
order (the stable sort breaks ties by original position). -/
theorem claim_C7_search_ranking (docs : List (String × String)) (query : String)
    (top_k : Nat) (hne : docs ≠ []) (hnd : (docs.map Prod.fst).Nodup) :
    (search docs query top_k).length ≤ top_k ∧
    (search docs query top_k).Pairwise fun r1 r2 =>
      r2.score ≤ r1.score ∧
        (r1.score = r2.score →
          List.indexOf r1.doc_id (docs.map Prod.fst) <
            List.indexOf r2.doc_id (docs.map Prod.fst)) := by
  have hie : ¬ (docs.isEmpty = true) := by
    cases docs with
    | nil => exact absurd rfl hne
    | cons a t => simp
  have hidxOf : ∀ j, j < docs.length →
      List.indexOf (docs.getD j ("", "")).1 (docs.map Prod.fst) = j := by
    intro j hj
    have hj' : j < (docs.map Prod.fst).length := by simpa
    have hval : (docs.getD j ("", "")).1 = (docs.map Prod.fst)[j] := by
      rw [List.getD_eq_getElem docs _ hj]
      simp
    rw [hval]
    have hmem : (docs.map Prod.fst)[j] ∈ docs.map Prod.fst := List.getElem_mem hj'
    have hlt : List.indexOf (docs.map Prod.fst)[j] (docs.map Prod.fst) <
        (docs.map Prod.fst).length := List.indexOf_lt_length.mpr hmem
    exact hnd.getElem_inj_iff.mp (List.getElem_indexOf hlt)
  constructor
  · simp only [search, if_neg hie, List.length_map, List.length_take]
    exact min_le_left _ _
  · simp only [search, if_neg hie]
    rw [List.pairwise_map]
    have hrank : ((docScores docs query).enum.insertionSort descRel).Pairwise rankRel :=
      insertionSort_rankRel _ (pairwise_enum_fst_lt _)
    refine (hrank.sublist (List.take_sublist _ _)).imp_of_mem ?_
    intro a b ha hb hr
    obtain ⟨i, sa⟩ := a
    obtain ⟨j, sb⟩ := b
    have haL : (i, sa) ∈ (docScores docs query).enum :=
      (List.perm_insertionSort descRel _).mem_iff.mp ((List.take_sublist _ _).subset ha)
    have hbL : (j, sb) ∈ (docScores docs query).enum :=
      (List.perm_insertionSort descRel _).mem_iff.mp ((List.take_sublist _ _).subset hb)
    have hibound := List.mem_enumFrom haL
    have hjbound := List.mem_enumFrom hbL
    have hilen : i < docs.length := by
      have := hibound.2.1
      simpa [docScores] using this
    have hjlen : j < docs.length := by
      have := hjbound.2.1
      simpa [docScores] using this
    constructor
    · rcases hr with hlt | ⟨heq, -⟩
      · exact le_of_lt hlt
      · exact le_of_eq heq
    · intro heq
      rcases hr with hlt | ⟨-, hij⟩
      · exfalso
        have heq' : sa = sb := heq
        rw [heq'] at hlt
        exact lt_irrefl _ hlt
      · show List.indexOf (docs.getD i ("", "")).1 (docs.map Prod.fst) <
          List.indexOf (docs.getD j ("", "")).1 (docs.map Prod.fst)
        rw [hidxOf i hilen, hidxOf j hjlen]
        exact hij

/-- Witness for C7 on a concrete two-document corpus. -/
theorem claim_C7_witness :
    (search [("ops", "alpha beta"), ("sup", "gamma")] "alpha" 3).length ≤ 3 ∧
    (search [("ops", "alpha beta"), ("sup", "gamma")] "alpha" 3).Pairwise fun r1 r2 =>
      r2.score ≤ r1.score ∧
        (r1.score = r2.score →
          List.indexOf r1.doc_id
              ([("ops", "alpha beta"), ("sup", "gamma")].map Prod.fst) <
            List.indexOf r2.doc_id
              ([("ops", "alpha beta"), ("sup", "gamma")].map Prod.fst)) :=
  claim_C7_search_ranking [("ops", "alpha beta"), ("sup", "gamma")] "alpha" 3
    (by decide) (by decide)
